import Mathlib

/-!
Formal model of the `large-file-upload` repository: chunk slicing, the
server-side chunk store and merge protocol, the upload session
orchestration, the bounded-concurrency upload pool, and the socket
dispatch wrapper.

The only parts of the repository present under `src/` are the server
action glue (`src/unnamed/part_000`), the socket server wrapper
(`src/lib/socket/models/server.ts`) and the React upload widget.  The
core (`UploadSlicer`, `UploadClient`, `UploadPool`, the storage layer) is
not in `src/`, so those components are modelled from the spec, as marked
on each definition.
-/

set_option linter.unusedVariables false

namespace Upload

/-- Chunk payloads and file contents are byte sequences. -/
abbrev Bytes := List Nat

/-- Modelled from the spec: a FileHash is a content digest identifying a
logical upload; here an abstract identifier. -/
abbrev FileHash := Nat

/-- Modelled from the spec (§3, ChunkIndex invariant): the number of chunks of
a file, `chunkCount = ceil(fileSize / chunkSize)`.  The client-side slicing
code (`UploadSlicer`) is not under `src/`. -/
def chunkCount (fileSize chunkSize : Nat) : Nat :=
  (fileSize + chunkSize - 1) / chunkSize

/-- Modelled from the spec (§3): the chunk at zero-based index `i` is the
contiguous byte range of the file starting at `i * chunkSize`, of length
`chunkSize` except possibly for the final chunk. -/
def chunkBytes (file : Bytes) (chunkSize i : Nat) : Bytes :=
  (file.drop (i * chunkSize)).take chunkSize

/-- Modelled from the spec (§3, §8): slicing a file into its consecutive
chunks in ascending index order.  The slicing code is not under `src/`. -/
def sliceFile (chunkSize : Nat) (file : Bytes) : List Bytes :=
  if h : chunkSize = 0 ∨ file = [] then []
  else file.take chunkSize :: sliceFile chunkSize (file.drop chunkSize)
termination_by file.length
decreasing_by
  push_neg at h
  obtain ⟨h1, h2⟩ := h
  have h3 : 0 < file.length := List.length_pos.mpr h2
  simp only [List.length_drop]
  omega

/-- Modelled from the spec (§4.2 ChunkStore, §3 ChunkRecord / MergedArtifact):
the server-side store keyed by `(FileHash, ChunkIndex)` plus the merged
artifacts; the storage implementation is not under `src/`. -/
structure ChunkStore where
  chunks : FileHash → Nat → Option Bytes
  merged : FileHash → Option Bytes

/-- Modelled from the spec (§4.2): `exists(FileHash)` is true when a merged
artifact already exists for this hash. -/
def fileExists (s : ChunkStore) (h : FileHash) : Bool :=
  (s.merged h).isSome

/-- Modelled from the spec (§4.2): `chunkExists(FileHash, ChunkIndex)`. -/
def chunkExists (s : ChunkStore) (h : FileHash) (i : Nat) : Bool :=
  (s.chunks h i).isSome

/-- Modelled from the spec (§4.2, §3 ChunkRecord): `writeChunk` stores bytes
under `(FileHash, ChunkIndex)`; a key that already exists is a silent no-op
success, and the existing record is immutable. -/
def writeChunk (s : ChunkStore) (h : FileHash) (i : Nat) (b : Bytes) : ChunkStore :=
  if chunkExists s h i then s
  else ⟨fun h' i' => if h' = h ∧ i' = i then some b else s.chunks h' i', s.merged⟩

/-- Modelled from the spec (§4.3): the merge precondition, all chunk indices
in `[0, chunkCount)` present in the store. -/
def allChunksPresent (s : ChunkStore) (h : FileHash) (n : Nat) : Bool :=
  (List.range n).all (fun i => chunkExists s h i)

/-- Modelled from the spec (§4.3): concatenation of the stored chunk bytes in
ascending index order. -/
def concatChunks (s : ChunkStore) (h : FileHash) (n : Nat) : Bytes :=
  ((List.range n).map (fun i => (s.chunks h i).getD [])).flatten

/-- Modelled from the spec (§4.3, §7): outcome of a merge request. -/
inductive MergeResult where
  | ok
  | incompleteUploadError
  | storageWriteError
deriving DecidableEq

/-- Modelled from the spec (§4.3 Merger): if the artifact already exists the
call is a no-op success; otherwise a missing required chunk is detected first
and reported as `IncompleteUploadError` before any concatenation; otherwise
the chunks are concatenated in ascending index order and the hash is marked as
existing.  `writeOk` models whether the artifact write I/O succeeds; when it
fails the result is `StorageWriteError` and the store is left unchanged.
Chunk records are never deleted by merge. -/
def merge (writeOk : Bool) (s : ChunkStore) (h : FileHash) (n : Nat) :
    MergeResult × ChunkStore :=
  if fileExists s h then (.ok, s)
  else if ¬ allChunksPresent s h n then (.incompleteUploadError, s)
  else if writeOk then
    (.ok, ⟨s.chunks, fun h' => if h' = h then some (concatChunks s h n) else s.merged h'⟩)
  else (.storageWriteError, s)

/-- Modelled from the spec (§4.5 UploadOrchestrator): the client state machine
states. -/
inductive EState where
  | Default
  | CalculatingHash
  | FastUploaded
  | WaitForUpload
  | Uploading
  | UploadStopped
  | UploadSuccessfully
  | Error
deriving DecidableEq

/-- Modelled from the spec (§4.5 transition 3): the pending-index set of a new
session is the complement, below `chunkCount`, of the indices already present
in the store. -/
def pendingIndices (s : ChunkStore) (h : FileHash) (n : Nat) : List Nat :=
  (List.range n).filter (fun i => ! chunkExists s h i)

/-- Modelled from the spec (§4.5 progress reporting): progress is
`completedChunks / chunkCount` scaled to `[0, 100]`. -/
def progress (completed n : Nat) : Nat :=
  completed * 100 / n

/-- Accumulator of a running session: current store, number of completed
chunks, the log of chunk writes issued, and the log of reported progress
values (one per chunk completion). -/
structure SessionAcc where
  store : ChunkStore
  completed : Nat
  writes : List Nat
  progressLog : List Nat

/-- Observable outcome of an upload session: terminal state, chunk writes
issued, reported progress values, and the final store. -/
structure SessionRun where
  final : EState
  writes : List Nat
  progressLog : List Nat
  store : ChunkStore

/-- Modelled from the spec (§4.5): uploading one pending chunk: the chunk
bytes are written to the store, the completed count increases, and progress is
recomputed and reported. -/
def sessionStep (h : FileHash) (file : Bytes) (cs n : Nat)
    (acc : SessionAcc) (i : Nat) : SessionAcc :=
  ⟨writeChunk acc.store h i (chunkBytes file cs i), acc.completed + 1,
   acc.writes ++ [i], acc.progressLog ++ [progress (acc.completed + 1) n]⟩

/-- Modelled from the spec (§4.5): the accumulated effect of uploading every
pending chunk of the session, starting from the already-present count. -/
def sessionAcc (s : ChunkStore) (h : FileHash) (file : Bytes) (cs : Nat) : SessionAcc :=
  (pendingIndices s h (chunkCount file.length cs)).foldl
    (sessionStep h file cs (chunkCount file.length cs))
    ⟨s, chunkCount file.length cs - (pendingIndices s h (chunkCount file.length cs)).length,
     [], []⟩

/-- Modelled from the spec (§4.5, §2 data flow): the non-fast-upload path of a
session: upload every pending chunk, then request the merge; merge success
ends in `UploadSuccessfully`, merge failure in `Error`. -/
def runSessionCore (s : ChunkStore) (h : FileHash) (file : Bytes) (cs : Nat) : SessionRun :=
  match merge true (sessionAcc s h file cs).store h (chunkCount file.length cs) with
  | (.ok, s2) =>
      ⟨.UploadSuccessfully, (sessionAcc s h file cs).writes,
       (sessionAcc s h file cs).progressLog, s2⟩
  | (.incompleteUploadError, s2) =>
      ⟨.Error, (sessionAcc s h file cs).writes, (sessionAcc s h file cs).progressLog, s2⟩
  | (.storageWriteError, s2) =>
      ⟨.Error, (sessionAcc s h file cs).writes, (sessionAcc s h file cs).progressLog, s2⟩

/-- Modelled from the spec (§2 data flow, §4.5 transition 2): a session first
looks the hash up via `fileExists`; if the file already exists it terminates
in `FastUploaded` with no chunk transfer at all, otherwise it runs the upload
path. -/
def runSession (s : ChunkStore) (h : FileHash) (file : Bytes) (cs : Nat) : SessionRun :=
  if fileExists s h then ⟨.FastUploaded, [], [], s⟩
  else runSessionCore s h file cs

/-- Modelled from the spec (§4.4 UploadPool): pool state, the queued work
items, the currently active transfers, and the running flag. -/
structure PoolState where
  queued : List Nat
  active : List Nat
  running : Bool

/-- The pool before anything is enqueued or started. -/
def poolIdle : PoolState :=
  ⟨[], [], false⟩

/-- Modelled from the spec (§4.4): the pool transitions.  `start` begins
dispatching, `stop` only stops new dispatch (in-flight items stay active),
`enqueue` is safe at any time, `dispatch` moves a queued item to active only
while running and strictly below the concurrency limit `N`, and `complete`
removes an active item. -/
inductive PoolStep (N : Nat) : PoolState → PoolState → Prop where
  | start (q a : List Nat) : PoolStep N ⟨q, a, false⟩ ⟨q, a, true⟩
  | stop (q a : List Nat) : PoolStep N ⟨q, a, true⟩ ⟨q, a, false⟩
  | enqueue (q a : List Nat) (r : Bool) (i : Nat) : PoolStep N ⟨q, a, r⟩ ⟨q ++ [i], a, r⟩
  | dispatch (i : Nat) (q a : List Nat) (hcap : a.length < N) :
      PoolStep N ⟨i :: q, a, true⟩ ⟨q, i :: a, true⟩
  | complete (q a : List Nat) (r : Bool) (i : Nat) (hmem : i ∈ a) :
      PoolStep N ⟨q, a, r⟩ ⟨q, a.erase i, r⟩

/-- Embedded from `src/unnamed/part_000` (`uploadActions.uploadChunk`): the
decoded `chunk` form-data field is a Blob, a Buffer, or something else. -/
inductive ChunkField where
  | blob (bytes : Bytes)
  | buffer (bytes : Bytes)
  | other

/-- Embedded from `src/unnamed/part_000`: the decoded form data
`{hash, chunk, index}` of an `uploadChunk` call. -/
structure UploadChunkData where
  hash : FileHash
  chunk : ChunkField
  index : Nat

/-- Embedded from `src/unnamed/part_000` (`uploadActions.uploadChunk`): if the
chunk field is a Blob its stream is written via the slicer, else if it is a
Buffer it is wrapped in a stream and written, otherwise the handler falls
through with no write and resolves successfully.  The second component logs
the chunk writes performed. -/
def uploadChunkAction (d : UploadChunkData) (s : ChunkStore) :
    Except String (ChunkStore × List Nat) :=
  match d.chunk with
  | .blob b => .ok (writeChunk s d.hash d.index b, [d.index])
  | .buffer b => .ok (writeChunk s d.hash d.index b, [d.index])
  | .other => .ok (s, [])

/-- Embedded from `src/lib/socket/models/server.ts`: an incoming socket
message `{name, args, requestId}`. -/
structure SocketMessage (α β : Type) where
  name : String
  args : List α
  requestId : Nat

/-- Embedded from `src/lib/socket/models/server.ts`: the reply sent back,
carrying the handler result and the request id of the incoming message. -/
structure SocketReply (β : Type) where
  result : β
  requestId : Nat

/-- Embedded from `src/lib/socket/models/server.ts` (`SocketServer`): the
message handler looks the action up by the message's name (`get(actions,
name)`, modelled as a partial lookup); if a handler is found it is applied to
the args and a reply with the result and the same `requestId` is sent,
otherwise no reply is sent. -/
def handleMessage {α β : Type} (actions : String → Option (List α → β))
    (msg : SocketMessage α β) : Option (SocketReply β) :=
  match actions msg.name with
  | some handle => some ⟨handle msg.args, msg.requestId⟩
  | none => none

/-- Concrete store for witnesses: chunks 0 and 1 of hash 0 present, nothing
merged. -/
def storeTwoChunks : ChunkStore :=
  ⟨fun h i => if h = 0 ∧ i < 2 then some [i] else none, fun _ => none⟩

/-- Concrete store for witnesses: only chunk 0 of hash 0 present. -/
def storeOneChunk : ChunkStore :=
  ⟨fun h i => if h = 0 ∧ i = 0 then some [7] else none, fun _ => none⟩

/-- Concrete store for witnesses: a merged artifact for hash 0, no chunks. -/
def storeMergedOnly : ChunkStore :=
  ⟨fun _ _ => none, fun h => if h = 0 then some [1, 2] else none⟩

/-- Concrete store for witnesses: chunks 0, 1, 2 of hash 0 present out of a
5-chunk file, nothing merged. -/
def storeThreeOfFive : ChunkStore :=
  ⟨fun h i => if h = 0 ∧ i < 3 then some [i] else none, fun _ => none⟩

/-- Concrete store for witnesses: completely empty. -/
def storeEmpty : ChunkStore :=
  ⟨fun _ _ => none, fun _ => none⟩

/-- Concrete action table for witnesses: a single registered action named
`sum` adding its arguments. -/
def demoActions : String → Option (List Nat → Nat) :=
  fun name =>
    match name with
    | "sum" => some (fun xs => xs.foldl (fun a b => a + b) 0)
    | _ => none

theorem chunkCount_zero (cs : Nat) : chunkCount 0 cs = 0 := by
  unfold chunkCount
  rcases Nat.eq_zero_or_pos cs with h | h
  · subst h
    rfl
  · exact Nat.div_eq_of_lt (by omega)

theorem sliceFile_flatten (chunkSize : Nat) (hcs : 0 < chunkSize) (file : Bytes) :
    (sliceFile chunkSize file).flatten = file := by
  rw [sliceFile]
  split
  · rename_i h
    rcases h with h | h
    · omega
    · simp [h]
  · rename_i h
    push_neg at h
    have h3 : 0 < file.length := List.length_pos.mpr h.2
    rw [List.flatten_cons, sliceFile_flatten chunkSize hcs (file.drop chunkSize)]
    exact List.take_append_drop chunkSize file
termination_by file.length
decreasing_by
  simp only [List.length_drop]
  omega

theorem sliceFile_length (chunkSize : Nat) (hcs : 0 < chunkSize) (file : Bytes) :
    (sliceFile chunkSize file).length = chunkCount file.length chunkSize := by
  rw [sliceFile]
  split
  · rename_i h
    rcases h with h | h
    · omega
    · subst h
      simp only [List.length_nil]
      exact (chunkCount_zero chunkSize).symm
  · rename_i h
    push_neg at h
    have h3 : 0 < file.length := List.length_pos.mpr h.2
    rw [List.length_cons, sliceFile_length chunkSize hcs (file.drop chunkSize)]
    simp only [chunkCount, List.length_drop]
    have e2 : file.length + chunkSize - 1 = (file.length - 1) + chunkSize := by omega
    rw [e2, Nat.add_div_right _ hcs]
    rcases Nat.lt_or_ge file.length chunkSize with hlt | hge
    · have d1 : (file.length - chunkSize + chunkSize - 1) / chunkSize = 0 := by
        have e1 : file.length - chunkSize + chunkSize - 1 = chunkSize - 1 := by omega
        rw [e1]
        exact Nat.div_eq_of_lt (by omega)
      have d2 : (file.length - 1) / chunkSize = 0 := Nat.div_eq_of_lt (by omega)
      rw [d1, d2]
    · have e1 : file.length - chunkSize + chunkSize - 1 = file.length - 1 := by omega
      rw [e1]
termination_by file.length
decreasing_by
  simp only [List.length_drop]
  omega

theorem sliceFile_getElem (chunkSize : Nat) (hcs : 0 < chunkSize) (file : Bytes)
    (i : Nat) (hi : i < chunkCount file.length chunkSize) :
    (sliceFile chunkSize file)[i]? = some (chunkBytes file chunkSize i) := by
  induction i generalizing file with
  | zero =>
    rw [sliceFile]
    split
    · rename_i h
      rcases h with h | h
      · omega
      · subst h
        simp [chunkCount_zero] at hi
    · simp [chunkBytes]
  | succ k ih =>
    rw [sliceFile]
    split
    · rename_i h
      rcases h with h | h
      · omega
      · subst h
        simp [chunkCount_zero] at hi
    · rename_i h
      push_neg at h
      have h3 : 0 < file.length := List.length_pos.mpr h.2
      simp only [List.getElem?_cons_succ]
      have hi' : k < chunkCount (file.drop chunkSize).length chunkSize := by
        have hlen := sliceFile_length chunkSize hcs file
        have hlen' := sliceFile_length chunkSize hcs (file.drop chunkSize)
        have hcons : (sliceFile chunkSize file).length =
            (sliceFile chunkSize (file.drop chunkSize)).length + 1 := by
          rw [sliceFile]
          split
          · rename_i hcontra
            rcases hcontra with hc | hc
            · omega
            · exact absurd hc h.2
          · simp
        omega
      rw [ih (file.drop chunkSize) hi']
      simp only [chunkBytes, List.drop_drop]
      have e4 : chunkSize + k * chunkSize = (k + 1) * chunkSize := by ring
      rw [e4]

/-- C1: for every file and every positive chunk size, the number of chunks is
`ceil(fileSize / chunkSize)`, the chunk at each index `i < chunkCount` is the
corresponding contiguous byte range, and concatenating all chunks in ascending
index order reconstructs the original file bytes exactly. -/
theorem chunk_roundtrip (chunkSize : Nat) (file : Bytes) (hcs : 0 < chunkSize) :
    (sliceFile chunkSize file).length = chunkCount file.length chunkSize ∧
    (∀ i, i < chunkCount file.length chunkSize →
      (sliceFile chunkSize file)[i]? = some (chunkBytes file chunkSize i)) ∧
    (sliceFile chunkSize file).flatten = file :=
  ⟨sliceFile_length chunkSize hcs file,
   fun i hi => sliceFile_getElem chunkSize hcs file i hi,
   sliceFile_flatten chunkSize hcs file⟩

/-- Witness for C1 at a concrete input: chunk size 2 over a 5-byte file. -/
theorem chunk_roundtrip_witness :
    (sliceFile 2 [10, 11, 12, 13, 14]).length = chunkCount 5 2 ∧
    (∀ i, i < chunkCount 5 2 →
      (sliceFile 2 [10, 11, 12, 13, 14])[i]? = some (chunkBytes [10, 11, 12, 13, 14] 2 i)) ∧
    (sliceFile 2 [10, 11, 12, 13, 14]).flatten = [10, 11, 12, 13, 14] :=
  chunk_roundtrip 2 [10, 11, 12, 13, 14] (by decide)

theorem fileExists_merge_self (writeOk : Bool) (s : ChunkStore) (h : FileHash) (n : Nat)
    (hok : (merge writeOk s h n).1 = .ok) :
    fileExists (merge writeOk s h n).2 h = true := by
  by_cases h1 : fileExists s h = true
  · simp [merge, h1]
  · by_cases h2 : allChunksPresent s h n = true
    · cases writeOk
      · simp [merge, h1, h2] at hok
      · simp only [merge]
        rw [if_neg h1, if_neg (by simp [h2])]
        simp [fileExists]
    · simp [merge, h1, h2] at hok

/-- C2: merge is idempotent.  For a hash whose chunks `[0, n)` are all
present, a merge succeeds; calling merge again on the resulting store
succeeds and returns the store unchanged (the artifact bytes are identical
and no reassembly is redone), and the hash is marked as existing. -/
theorem merge_idempotent (s : ChunkStore) (h : FileHash) (n : Nat)
    (hall : allChunksPresent s h n = true) :
    (merge true s h n).1 = .ok ∧
    merge true (merge true s h n).2 h n = (.ok, (merge true s h n).2) ∧
    fileExists (merge true s h n).2 h = true := by
  have h1 : (merge true s h n).1 = .ok := by
    by_cases hf : fileExists s h = true
    · simp [merge, hf]
    · simp [merge, hf, hall]
  have h2 : fileExists (merge true s h n).2 h = true :=
    fileExists_merge_self true s h n h1
  refine ⟨h1, ?_, h2⟩
  generalize (merge true s h n).2 = t at h2 ⊢
  unfold merge
  rw [if_pos h2]

/-- Witness for C2 at a concrete input: both chunks of hash 0 present. -/
theorem merge_idempotent_witness :
    (merge true storeTwoChunks 0 2).1 = .ok ∧
    merge true (merge true storeTwoChunks 0 2).2 0 2 = (.ok, (merge true storeTwoChunks 0 2).2) ∧
    fileExists (merge true storeTwoChunks 0 2).2 0 = true :=
  merge_idempotent storeTwoChunks 0 2 (by decide)

/-- C3: `writeChunk` is idempotent.  Writing the same `(FileHash, ChunkIndex)`
key twice with identical bytes leaves the store in exactly the state of a
single write (so the second write is a silent success that cannot corrupt the
bytes stored by the first), and after the write the chunk is present. -/
theorem writeChunk_idempotent (s : ChunkStore) (h : FileHash) (i : Nat) (b : Bytes) :
    writeChunk (writeChunk s h i b) h i b = writeChunk s h i b ∧
    chunkExists (writeChunk s h i b) h i = true := by
  have hex : chunkExists (writeChunk s h i b) h i = true := by
    unfold writeChunk
    split
    · assumption
    · simp [chunkExists]
  constructor
  · generalize writeChunk s h i b = t at hex ⊢
    unfold writeChunk
    rw [if_pos hex]
  · exact hex

/-- C4: merge failures are detected up front and preserve the chunk records.
In every case merge leaves the chunk records unchanged; if the artifact does
not yet exist and some required index below `n` is missing, merge fails with
`IncompleteUploadError` and the whole store is unchanged (the failure is
decided by the presence check, before any concatenation); if all chunks are
present but the artifact write fails, merge fails with `StorageWriteError`
and the whole store is unchanged, so a retry remains possible. -/
theorem merge_failure_preserves_chunks (writeOk : Bool) (s : ChunkStore)
    (h : FileHash) (n : Nat) :
    (merge writeOk s h n).2.chunks = s.chunks ∧
    (fileExists s h = false → (∃ i, i < n ∧ chunkExists s h i = false) →
      merge writeOk s h n = (.incompleteUploadError, s)) ∧
    (fileExists s h = false → allChunksPresent s h n = true → writeOk = false →
      merge writeOk s h n = (.storageWriteError, s)) := by
  refine ⟨?_, ?_, ?_⟩
  · by_cases h1 : fileExists s h = true
    · simp [merge, h1]
    · by_cases h2 : allChunksPresent s h n = true
      · cases writeOk <;> simp [merge, h1, h2]
      · simp [merge, h1, h2]
  · intro hex hmiss
    obtain ⟨i, hi, hci⟩ := hmiss
    have hnall : ¬ allChunksPresent s h n = true := by
      intro hc
      unfold allChunksPresent at hc
      rw [List.all_eq_true] at hc
      have hi2 := hc i (List.mem_range.mpr hi)
      simp [hci] at hi2
    simp [merge, hex, hnall]
  · intro hex hall hw
    subst hw
    simp [merge, hex, hall]

/-- Witness for C4 at concrete inputs: a store missing chunk 1 makes merge
fail with `IncompleteUploadError` and leaves the store unchanged, and a
complete store with a failing artifact write yields `StorageWriteError`
leaving the store unchanged. -/
theorem merge_failure_preserves_chunks_witness :
    merge true storeOneChunk 0 2 = (.incompleteUploadError, storeOneChunk) ∧
    merge false storeTwoChunks 0 2 = (.storageWriteError, storeTwoChunks) ∧
    (merge true storeOneChunk 0 2).2.chunks = storeOneChunk.chunks :=
  ⟨(merge_failure_preserves_chunks true storeOneChunk 0 2).2.1 (by decide)
      ⟨1, by decide, by decide⟩,
   (merge_failure_preserves_chunks false storeTwoChunks 0 2).2.2 (by decide) (by decide) rfl,
   (merge_failure_preserves_chunks true storeOneChunk 0 2).1⟩

/-- C5: fast-upload short-circuit.  If `fileExists` answers true at the hash
lookup, the session performs no chunk write at all and terminates in the
`FastUploaded` success state, with the store untouched. -/
theorem fast_upload_no_writes (s : ChunkStore) (h : FileHash) (file : Bytes) (cs : Nat)
    (hex : fileExists s h = true) :
    (runSession s h file cs).writes = [] ∧
    (runSession s h file cs).final = .FastUploaded ∧
    (runSession s h file cs).store = s := by
  unfold runSession
  rw [if_pos hex]
  exact ⟨rfl, rfl, rfl⟩

/-- Witness for C5 at a concrete input: hash 0 already merged in the store. -/
theorem fast_upload_no_writes_witness :
    (runSession storeMergedOnly 0 [1, 2, 3] 2).writes = [] ∧
    (runSession storeMergedOnly 0 [1, 2, 3] 2).final = .FastUploaded ∧
    (runSession storeMergedOnly 0 [1, 2, 3] 2).store = storeMergedOnly :=
  fast_upload_no_writes storeMergedOnly 0 [1, 2, 3] 2 (by decide)

theorem sessionFold_writes (h : FileHash) (file : Bytes) (cs n : Nat) :
    ∀ (l : List Nat) (acc : SessionAcc),
      (l.foldl (sessionStep h file cs n) acc).writes = acc.writes ++ l := by
  intro l
  induction l with
  | nil =>
    intro acc
    simp
  | cons x xs ih =>
    intro acc
    rw [List.foldl_cons, ih]
    simp [sessionStep]

theorem mem_pendingIndices (s : ChunkStore) (h : FileHash) (n i : Nat) :
    i ∈ pendingIndices s h n ↔ (i < n ∧ chunkExists s h i = false) := by
  unfold pendingIndices
  simp [List.mem_filter, List.mem_range]

theorem pendingIndices_length_le (s : ChunkStore) (h : FileHash) (n : Nat) :
    (pendingIndices s h n).length ≤ n := by
  calc (pendingIndices s h n).length ≤ (List.range n).length :=
        List.length_filter_le _ _
    _ = n := List.length_range n

theorem runSessionCore_writes (s : ChunkStore) (h : FileHash) (file : Bytes) (cs : Nat) :
    (runSessionCore s h file cs).writes = (sessionAcc s h file cs).writes := by
  unfold runSessionCore
  rcases hm : merge true (sessionAcc s h file cs).store h (chunkCount file.length cs)
    with ⟨r, s2⟩
  cases r <;> rfl

theorem runSessionCore_progressLog (s : ChunkStore) (h : FileHash) (file : Bytes) (cs : Nat) :
    (runSessionCore s h file cs).progressLog = (sessionAcc s h file cs).progressLog := by
  unfold runSessionCore
  rcases hm : merge true (sessionAcc s h file cs).store h (chunkCount file.length cs)
    with ⟨r, s2⟩
  cases r <;> rfl

/-- C6: resume correctness.  For a session whose hash is not yet merged, the
chunk writes issued are exactly the pending indices, and an index is pending
precisely when it is below `chunkCount` and absent from the store: the session
uploads exactly the complement of the already-present set, re-uploading no
present index and omitting no missing one. -/
theorem resume_enqueues_complement (s : ChunkStore) (h : FileHash) (file : Bytes) (cs : Nat)
    (hex : fileExists s h = false) :
    (runSession s h file cs).writes = pendingIndices s h (chunkCount file.length cs) ∧
    (∀ i, i ∈ pendingIndices s h (chunkCount file.length cs) ↔
      (i < chunkCount file.length cs ∧ chunkExists s h i = false)) := by
  constructor
  · have hc : ¬ fileExists s h = true := by simp [hex]
    unfold runSession
    rw [if_neg hc, runSessionCore_writes]
    unfold sessionAcc
    rw [sessionFold_writes]
    rfl
  · intro i
    exact mem_pendingIndices s h (chunkCount file.length cs) i

/-- Witness for C6 at a concrete input: indices 0, 1, 2 of 5 already present;
the session writes exactly the complement, and index 3 is pending precisely
because it is below the chunk count and absent. -/
theorem resume_enqueues_complement_witness :
    (runSession storeThreeOfFive 0 [1, 2, 3, 4, 5, 6, 7, 8, 9, 10] 2).writes =
      pendingIndices storeThreeOfFive 0 (chunkCount ([1, 2, 3, 4, 5, 6, 7, 8, 9, 10] : Bytes).length 2) ∧
    (3 ∈ pendingIndices storeThreeOfFive 0 (chunkCount ([1, 2, 3, 4, 5, 6, 7, 8, 9, 10] : Bytes).length 2) ↔
      (3 < chunkCount ([1, 2, 3, 4, 5, 6, 7, 8, 9, 10] : Bytes).length 2 ∧
        chunkExists storeThreeOfFive 0 3 = false)) :=
  ⟨(resume_enqueues_complement storeThreeOfFive 0 [1, 2, 3, 4, 5, 6, 7, 8, 9, 10] 2 (by decide)).1,
   (resume_enqueues_complement storeThreeOfFive 0 [1, 2, 3, 4, 5, 6, 7, 8, 9, 10] 2 (by decide)).2 3⟩

/-- C7: pool concurrency bound.  In every state reachable by the pool
transition system from the idle pool, for any configured concurrency `N`, at
most `N` transfers are simultaneously active. -/
theorem pool_concurrency_bound (N : Nat) (s : PoolState)
    (hreach : Relation.ReflTransGen (PoolStep N) poolIdle s) :
    s.active.length ≤ N := by
  induction hreach with
  | refl =>
    simp [poolIdle]
  | tail hprev hstep ih =>
    cases hstep with
    | start q a => exact ih
    | stop q a => exact ih
    | enqueue q a r i => exact ih
    | dispatch i q a hcap => simpa using hcap
    | complete q a r i hmem => exact le_trans (List.length_erase_le i a) ih

/-- Witness for C7 at a concrete trace: with concurrency 1, after starting,
enqueuing one item and dispatching it, the pool holds at most one active
transfer. -/
theorem pool_concurrency_bound_witness :
    (⟨[], [0], true⟩ : PoolState).active.length ≤ 1 :=
  pool_concurrency_bound 1 ⟨[], [0], true⟩
    (Relation.ReflTransGen.tail
      (Relation.ReflTransGen.tail
        (Relation.ReflTransGen.single (PoolStep.start [] []))
        (PoolStep.enqueue [] [] true 0))
      (PoolStep.dispatch 0 [] [] (by decide)))

theorem progress_le_100 (c n : Nat) (hc : c ≤ n) (hn : 0 < n) : progress c n ≤ 100 := by
  unfold progress
  calc c * 100 / n ≤ n * 100 / n := Nat.div_le_div_right (Nat.mul_le_mul_right 100 hc)
    _ = 100 := Nat.mul_div_cancel_left 100 hn

theorem progress_mono (n c c' : Nat) (hcc : c ≤ c') : progress c n ≤ progress c' n := by
  unfold progress
  exact Nat.div_le_div_right (Nat.mul_le_mul_right 100 hcc)

theorem progress_full (n : Nat) (hn : 0 < n) : progress n n = 100 := by
  unfold progress
  exact Nat.mul_div_cancel_left 100 hn

theorem chain'_map_range' (f : Nat → Nat) (hf : ∀ c, f c ≤ f (c + 1)) :
    ∀ (len a : Nat), List.Chain' (fun x y => x ≤ y) ((List.range' a len).map f) := by
  intro len
  induction len with
  | zero =>
    intro a
    simp
  | succ m ih =>
    intro a
    cases m with
    | zero => simp
    | succ m2 =>
      rw [List.range'_succ, List.map_cons, List.range'_succ, List.map_cons]
      refine List.chain'_cons.mpr ⟨hf a, ?_⟩
      have h2 := ih (a + 1)
      rwa [List.range'_succ, List.map_cons] at h2

theorem getLast?_map_range' (f : Nat → Nat) (a m : Nat) :
    ((List.range' a (m + 1)).map f).getLast? = some (f (a + m)) := by
  rw [List.range'_1_concat, List.map_append]
  simp

theorem sessionFold_progressLog (h : FileHash) (file : Bytes) (cs n : Nat) :
    ∀ (l : List Nat) (acc : SessionAcc),
      (l.foldl (sessionStep h file cs n) acc).progressLog =
        acc.progressLog ++
          (List.range' (acc.completed + 1) l.length).map (fun c => progress c n) := by
  intro l
  induction l with
  | nil =>
    intro acc
    simp
  | cons x xs ih =>
    intro acc
    rw [List.foldl_cons, ih]
    simp only [sessionStep]
    rw [List.length_cons, List.range'_succ, List.map_cons]
    simp [List.append_assoc]

theorem writeChunk_merged (s : ChunkStore) (h : FileHash) (i : Nat) (b : Bytes) :
    (writeChunk s h i b).merged = s.merged := by
  unfold writeChunk
  split <;> rfl

theorem sessionFold_merged (h : FileHash) (file : Bytes) (cs n : Nat) :
    ∀ (l : List Nat) (acc : SessionAcc),
      (l.foldl (sessionStep h file cs n) acc).store.merged = acc.store.merged := by
  intro l
  induction l with
  | nil =>
    intro acc
    rfl
  | cons x xs ih =>
    intro acc
    rw [List.foldl_cons, ih]
    exact writeChunk_merged acc.store h x (chunkBytes file cs x)

theorem chunkExists_writeChunk (s : ChunkStore) (h : FileHash) (i j : Nat) (b : Bytes) :
    chunkExists (writeChunk s h j b) h i = (chunkExists s h i || decide (i = j)) := by
  unfold writeChunk
  split
  · rename_i hex
    by_cases hij : i = j
    · subst hij
      simp [hex]
    · simp [hij]
  · by_cases hij : i = j
    · subst hij
      simp [chunkExists]
    · simp [chunkExists, hij]

theorem sessionFold_chunkExists (h : FileHash) (file : Bytes) (cs n i : Nat) :
    ∀ (l : List Nat) (acc : SessionAcc),
      chunkExists (l.foldl (sessionStep h file cs n) acc).store h i =
        (chunkExists acc.store h i || decide (i ∈ l)) := by
  intro l
  induction l with
  | nil =>
    intro acc
    simp
  | cons x xs ih =>
    intro acc
    rw [List.foldl_cons, ih]
    show (chunkExists (writeChunk acc.store h x (chunkBytes file cs x)) h i
      || decide (i ∈ xs)) = _
    rw [chunkExists_writeChunk]
    by_cases h1 : i = x <;> by_cases h2 : i ∈ xs <;> simp [h1, h2]

theorem allChunksPresent_sessionAcc (s : ChunkStore) (h : FileHash) (file : Bytes) (cs : Nat) :
    allChunksPresent (sessionAcc s h file cs).store h (chunkCount file.length cs) = true := by
  unfold allChunksPresent
  rw [List.all_eq_true]
  intro i hi
  rw [List.mem_range] at hi
  show chunkExists (sessionAcc s h file cs).store h i = true
  unfold sessionAcc
  rw [sessionFold_chunkExists]
  by_cases hc : chunkExists s h i = true
  · simp [hc]
  · have hmem : i ∈ pendingIndices s h (chunkCount file.length cs) :=
      (mem_pendingIndices s h (chunkCount file.length cs) i).mpr
        ⟨hi, by simpa using hc⟩
    simp [hmem]

theorem fileExists_sessionAcc (s : ChunkStore) (h : FileHash) (file : Bytes) (cs : Nat) :
    fileExists (sessionAcc s h file cs).store h = fileExists s h := by
  unfold fileExists sessionAcc
  rw [sessionFold_merged]

theorem runSessionCore_final (s : ChunkStore) (h : FileHash) (file : Bytes) (cs : Nat)
    (hex : fileExists s h = false) :
    (runSessionCore s h file cs).final = .UploadSuccessfully := by
  have hex2 : ¬ fileExists (sessionAcc s h file cs).store h = true := by
    rw [fileExists_sessionAcc, hex]
    simp
  have hall := allChunksPresent_sessionAcc s h file cs
  have h1 : (merge true (sessionAcc s h file cs).store h (chunkCount file.length cs)).1
      = .ok := by
    simp [merge, hex2, hall]
  unfold runSessionCore
  rcases hm : merge true (sessionAcc s h file cs).store h (chunkCount file.length cs)
    with ⟨r, s2⟩
  rw [hm] at h1
  cases r
  · rfl
  · simp at h1
  · simp at h1

/-- C8: progress invariant.  For a session that actually transfers at least
one chunk (hash not merged, pending set nonempty), the session ends in
`UploadSuccessfully`, one progress value is reported per chunk completion,
every reported value is at most 100 (and trivially at least 0), the sequence
of reported values is monotonically non-decreasing, and the final reported
value is 100. -/
theorem progress_monotone_session (s : ChunkStore) (h : FileHash) (file : Bytes) (cs : Nat)
    (hex : fileExists s h = false)
    (hp : pendingIndices s h (chunkCount file.length cs) ≠ []) :
    (runSession s h file cs).final = .UploadSuccessfully ∧
    (runSession s h file cs).progressLog.length =
      (pendingIndices s h (chunkCount file.length cs)).length ∧
    (∀ p ∈ (runSession s h file cs).progressLog, p ≤ 100) ∧
    List.Chain' (fun x y => x ≤ y) (runSession s h file cs).progressLog ∧
    (runSession s h file cs).progressLog.getLast? = some 100 := by
  have hc : ¬ fileExists s h = true := by simp [hex]
  have hn : 0 < chunkCount file.length cs := by
    rcases List.exists_mem_of_ne_nil _ hp with ⟨i, hi⟩
    have := (mem_pendingIndices s h (chunkCount file.length cs) i).mp hi
    omega
  have hlen : (pendingIndices s h (chunkCount file.length cs)).length ≤
      chunkCount file.length cs :=
    pendingIndices_length_le s h (chunkCount file.length cs)
  have hlpos : 0 < (pendingIndices s h (chunkCount file.length cs)).length :=
    List.length_pos.mpr hp
  have hlog : (runSession s h file cs).progressLog =
      (List.range'
        (chunkCount file.length cs - (pendingIndices s h (chunkCount file.length cs)).length + 1)
        (pendingIndices s h (chunkCount file.length cs)).length).map
        (fun c => progress c (chunkCount file.length cs)) := by
    unfold runSession
    rw [if_neg hc, runSessionCore_progressLog]
    unfold sessionAcc
    rw [sessionFold_progressLog]
    simp
  have hfinal : (runSession s h file cs).final = .UploadSuccessfully := by
    unfold runSession
    rw [if_neg hc]
    exact runSessionCore_final s h file cs hex
  refine ⟨hfinal, ?_, ?_, ?_, ?_⟩
  · rw [hlog]
    simp
  · intro p hpmem
    rw [hlog] at hpmem
    rcases List.mem_map.mp hpmem with ⟨c, hcmem, hceq⟩
    rw [List.mem_range'] at hcmem
    rcases hcmem with ⟨k, hk, hkeq⟩
    subst hceq
    refine progress_le_100 c (chunkCount file.length cs) ?_ hn
    omega
  · rw [hlog]
    exact chain'_map_range' (fun c => progress c (chunkCount file.length cs))
      (fun c => progress_mono (chunkCount file.length cs) c (c + 1) (by omega)) _ _
  · rw [hlog]
    rcases Nat.exists_eq_add_of_lt hlpos with ⟨m, hm⟩
    have hm2 : (pendingIndices s h (chunkCount file.length cs)).length = m + 1 := by omega
    rw [hm2, getLast?_map_range']
    have he : chunkCount file.length cs - (m + 1) + 1 + m =
        chunkCount file.length cs := by omega
    rw [he, progress_full (chunkCount file.length cs) hn]

/-- Witness for C8 at a concrete input: an empty store, a 3-byte file and
chunk size 2 (two pending chunks). -/
theorem progress_monotone_session_witness :
    (runSession storeEmpty 0 [1, 2, 3] 2).final = .UploadSuccessfully ∧
    List.Chain' (fun x y => x ≤ y) (runSession storeEmpty 0 [1, 2, 3] 2).progressLog ∧
    (runSession storeEmpty 0 [1, 2, 3] 2).progressLog.getLast? = some 100 :=
  ⟨(progress_monotone_session storeEmpty 0 [1, 2, 3] 2 (by decide) (by decide)).1,
   (progress_monotone_session storeEmpty 0 [1, 2, 3] 2 (by decide) (by decide)).2.2.2.1,
   (progress_monotone_session storeEmpty 0 [1, 2, 3] 2 (by decide) (by decide)).2.2.2.2⟩

/-- C9: an `uploadChunk` call whose decoded chunk field is neither a Blob nor
a Buffer performs no chunk write on the store and still completes without
raising an error, a silent no-op success at the public interface. -/
theorem uploadChunk_non_blob_noop (h : FileHash) (i : Nat) (s : ChunkStore) :
    uploadChunkAction ⟨h, .other, i⟩ s = .ok (s, []) :=
  rfl

/-- C10: the socket server replies to a message exactly when its name resolves
to a registered action; when it does, the reply carries the handler's result
on the message's args together with the message's own `requestId`, and when it
does not, no reply is sent. -/
theorem socket_reply_correct {α β : Type} (actions : String → Option (List α → β))
    (msg : SocketMessage α β) :
    ((handleMessage actions msg).isSome ↔ (actions msg.name).isSome) ∧
    (∀ f, actions msg.name = some f →
      handleMessage actions msg = some ⟨f msg.args, msg.requestId⟩) ∧
    (actions msg.name = none → handleMessage actions msg = none) := by
  refine ⟨?_, ?_, ?_⟩
  · unfold handleMessage
    rcases hm : actions msg.name with _ | f <;> simp
  · intro f hf
    unfold handleMessage
    rw [hf]
  · intro hf
    unfold handleMessage
    rw [hf]

/-- Witness for C10 at concrete inputs: the registered `sum` action is
answered with its result and the same request id, and an unknown name gets no
reply. -/
theorem socket_reply_correct_witness :
    handleMessage demoActions ⟨"sum", [1, 2], 7⟩ =
      some ⟨(fun xs => xs.foldl (fun a b => a + b) 0) [1, 2], 7⟩ ∧
    handleMessage demoActions ⟨"nope", [], 8⟩ = none :=
  ⟨(socket_reply_correct demoActions ⟨"sum", [1, 2], 7⟩).2.1
      (fun xs => xs.foldl (fun a b => a + b) 0) rfl,
   (socket_reply_correct demoActions ⟨"nope", [], 8⟩).2.2 rfl⟩

end Upload
